import Mathlib

/-!
# gosnowizard: the Snowizard id client

A shallow embedding of `snowizard/snowizard.go`: the three response decoders
and the host-failover loop `SnowizardClient.Next`.

* A response body (`[]byte`) is a list of bytes.
* A Go `error` value is `Option Error`: `none` is `nil`, and the package has
  two sentinels, `ErrNoServers` and `ErrMalformedResp`.
* `int64` values are integers; where Go arithmetic can wrap, the wrap is
  written out (`% 2 ^ 64`, `int64`).
* The network is a script: what happens at the i-th iteration of the loop
  (`World`).  `Next` threads an explicit record of the requests it handed to
  the transport, the response bodies it obtained, and the ones it closed.
  A call ends in a return or in a panic (`Exit`).  The log lines are left out.
* The library functions the decoders call are written out after the
  libraries: `strconv.ParseInt` and `json.Unmarshal`; `proto.Unmarshal` is a
  parameter.  The generated record SnowizardResponse is a record with an
  optional id.
-/

namespace Snowizard

/-! ## Data model -/

/-- A response body, Go's `[]byte`. -/
abbrev Bytes := List UInt8

/-- The bytes of an ASCII string literal. -/
def bytes (s : String) : Bytes := s.toList.map fun c => UInt8.ofNat c.toNat

/-- The package's error sentinels. -/
inductive Error where
  | ErrNoServers
  | ErrMalformedResp
  deriving DecidableEq, Repr

/-- Content-Type for text/plain. -/
def TextContentType : String := "text/plain"

/-- Content-Type for application/json. -/
def JsonContentType : String := "application/json"

/-- Content-Type for application/x-protobuf. -/
def ProtobufContentType : String := "application/x-protobuf"

/-- User-Agent sent to the server. -/
def UserAgent : String := "gosnowizard"

/-- The value `http.StatusOK`. -/
def StatusOK : Int := 200

/-- The part of `*http.Request` that `Next` sets. -/
structure Request where
  Method : String
  URL : String
  Header : List (String × String)
  deriving DecidableEq, Repr

/-- The part of `*http.Response` that `Next` reads: the status code and what
`ioutil.ReadAll(resp.Body)` yields (`none` when the read fails). -/
structure Response where
  StatusCode : Int
  Body : Option Bytes
  deriving DecidableEq, Repr

/-- What the environment does with one iteration of the loop of `Next`. -/
inductive Attempt where
  /-- `http.NewRequest` returns `(nil, err)`: the URL does not parse. -/
  | newRequestErr
  /-- `s.client.Do(req)` returns an error (DNS, connect timeout, reset). -/
  | doErr
  /-- `s.client.Do(req)` returns a response. -/
  | resp (r : Response)
  deriving DecidableEq, Repr

/-- The script of the network: the attempt made at the i-th iteration. -/
abbrev World := Nat → Attempt

/-- The client: `Hosts`, `decodeRespFn` and `contentType` (the transport and
its timeout live in `World`). -/
structure SnowizardClient where
  Hosts : List String
  decodeRespFn : Bytes → Int × Option Error
  contentType : String

/-- How a call of `Next` ends: a normal return of `(id, err)`, or a run-time
panic (nil pointer dereference). -/
inductive Exit where
  | returned (id : Int) (err : Option Error)
  | panicked
  deriving DecidableEq, Repr

/-- The effects of a call of `Next`, as explicit state. -/
structure Effects where
  /-- Requests handed to `s.client.Do`, oldest first. -/
  requested : List Request
  /-- Iterations whose `Do` returned a response (a body to be closed). -/
  opened : List Nat
  /-- Iterations whose `defer resp.Body.Close()` has been registered; the
  most recent is first. -/
  deferred : List Nat
  /-- Iterations whose response body has been closed, in closing order. -/
  closed : List Nat
  deriving DecidableEq, Repr

/-- No effect yet. -/
def Effects.init : Effects := ⟨[], [], [], []⟩

/-- Leaving the function runs the deferred calls, last registered first. -/
def Effects.runDeferred (e : Effects) : Effects :=
  { e with deferred := [], closed := e.closed ++ e.deferred }

/-! ## The text decoder

`decodeText` is `strconv.ParseInt(string(in), 0, 64)`.  The strconv functions
it runs are standard library, so they are spelled out here after the library:
`ParseInt` strips the sign and checks the signed range, `ParseUint` picks the
base from the prefix, runs the digit loop with its overflow checks, and
validates underscores. -/

/-- The error kinds of `strconv.NumError`. -/
inductive NumError where
  | ErrSyntax
  | ErrRange
  | ErrBase
  | ErrBitSize
  deriving DecidableEq, Repr

/-- The function `lower` of strconv: `c | ('x' - 'X')`. -/
def lower (c : Nat) : Nat := c ||| 0x20

/-- The constant `strconv.IntSize` on a 64-bit platform. -/
def IntSize : Int := 64

/-- The constant `maxUint64` of strconv. -/
def maxUint64 : Nat := 2 ^ 64 - 1

/-- The value of one byte as a digit: `'0'..'9'`, then letters. -/
def digitVal (c : Nat) : Option Nat :=
  if 48 ≤ c ∧ c ≤ 57 then some (c - 48)
  else if 97 ≤ lower c ∧ lower c ≤ 122 then some (lower c - 97 + 10)
  else none

/-- The digit loop of `ParseUint`: the value, or the pair ParseUint returns
with its error; the flag records whether an underscore was skipped. -/
def parseDigits (base : Nat) (base0 : Bool) (cutoff maxVal : Nat) :
    Bytes → Nat → Bool → Except (Nat × NumError) (Nat × Bool)
  | [], n, us => .ok (n, us)
  | c :: cs, n, us =>
    if c.toNat = 95 ∧ base0 = true then parseDigits base base0 cutoff maxVal cs n true
    else
      match digitVal c.toNat with
      | none => .error (0, NumError.ErrSyntax)
      | some d =>
        if d ≥ base % 256 then .error (0, NumError.ErrSyntax)
        else if n ≥ cutoff then .error (maxVal, NumError.ErrRange)
        else
          let n0 := n * base % 2 ^ 64
          let n1 := (n0 + d) % 2 ^ 64
          if n1 < n0 ∨ n1 > maxVal then .error (maxVal, NumError.ErrRange)
          else parseDigits base base0 cutoff maxVal cs n1 us

/-- What `underscoreOK` last saw. -/
inductive Saw where
  | start
  | digit
  | underscore
  | other
  deriving DecidableEq, Repr

/-- The scan of `underscoreOK` over the number proper. -/
def underscoreScan (hex : Bool) : Bytes → Saw → Bool
  | [], saw => decide (saw ≠ Saw.underscore)
  | c :: cs, saw =>
    if (48 ≤ c.toNat ∧ c.toNat ≤ 57) ∨
        (hex = true ∧ 97 ≤ lower c.toNat ∧ lower c.toNat ≤ 102) then
      underscoreScan hex cs Saw.digit
    else if c.toNat = 95 then
      if saw ≠ Saw.digit then false else underscoreScan hex cs Saw.underscore
    else if saw = Saw.underscore then false
    else underscoreScan hex cs Saw.other

/-- The function `underscoreOK` of strconv: underscores only between digits
(the base prefix counting as a digit). -/
def underscoreOK (s : Bytes) : Bool :=
  let s1 : Bytes :=
    match s with
    | c :: cs => if c.toNat = 45 ∨ c.toNat = 43 then cs else s
    | [] => s
  match s1 with
  | c0 :: c1 :: cs =>
    if c0.toNat = 48 ∧ (lower c1.toNat = 98 ∨ lower c1.toNat = 111 ∨ lower c1.toNat = 120) then
      underscoreScan (decide (lower c1.toNat = 120)) cs Saw.digit
    else underscoreScan false s1 Saw.start
  | _ => underscoreScan false s1 Saw.start

/-- The base implied by the prefix, for base argument 0, and the string
after the prefix. -/
def prefixBase : Bytes → Nat × Bytes
  | [] => (10, [])
  | c0 :: cs =>
    if c0.toNat = 48 then
      match cs with
      | c1 :: _ :: _ =>
        if lower c1.toNat = 98 then (2, cs.tail)
        else if lower c1.toNat = 111 then (8, cs.tail)
        else if lower c1.toNat = 120 then (16, cs.tail)
        else (8, cs)
      | _ => (8, cs)
    else (10, c0 :: cs)

/-- Modelled from the spec: `strconv.ParseUint` of Go's standard library, which
is not under src/ (the text decoder parses "a base-10 (or language-appropriate
auto-base) signed 64-bit integer literal").  The definition follows the
library's algorithm; it returns the value and the error kind. -/
def ParseUint (s : Bytes) (base bitSize : Int) : Nat × Option NumError :=
  if s = [] then (0, some NumError.ErrSyntax)
  else
    let chosen : Option (Nat × Bytes) :=
      if 2 ≤ base ∧ base ≤ 36 then some (base.toNat, s)
      else if base = 0 then some (prefixBase s)
      else none
    match chosen with
    | none => (0, some NumError.ErrBase)
    | some (b, digits) =>
      if bitSize < 0 ∨ bitSize > 64 then (0, some NumError.ErrBitSize)
      else
        let bits : Int := if bitSize = 0 then IntSize else bitSize
        let cutoff := maxUint64 / b + 1
        let maxVal := (2 ^ bits.toNat % 2 ^ 64 + 2 ^ 64 - 1) % 2 ^ 64
        match parseDigits b (decide (base = 0)) cutoff maxVal digits 0 false with
        | .error (v, e) => (v, some e)
        | .ok (n, underscores) =>
          if underscores = true ∧ underscoreOK s = false then (0, some NumError.ErrSyntax)
          else (n, none)

/-- The conversion `int64(x)`: two's complement wrap to 64 bits. -/
def int64 (x : Int) : Int := (x + 2 ^ 63) % 2 ^ 64 - 2 ^ 63

/-- Modelled from the spec: `strconv.ParseInt` of Go's standard library, which
is not under src/.  The definition follows the library's algorithm: the sign
is picked off, `ParseUint` converts, and the signed range is checked; it
returns the value and the error kind. -/
def ParseInt (s : Bytes) (base bitSize : Int) : Int × Option NumError :=
  match s with
  | [] => (0, some NumError.ErrSyntax)
  | c :: cs =>
    let neg : Bool := if c.toNat = 43 then false else decide (c.toNat = 45)
    let s1 : Bytes := if c.toNat = 43 ∨ c.toNat = 45 then cs else s
    match ParseUint s1 base bitSize with
    | (un, err) =>
      if err ≠ none ∧ err ≠ some NumError.ErrRange then (0, err)
      else
        let bits : Int := if bitSize = 0 then IntSize else bitSize
        let cutoff : Nat := 2 ^ (bits - 1).toNat % 2 ^ 64
        if neg = false ∧ un ≥ cutoff then (int64 (cutoff - 1), some NumError.ErrRange)
        else if neg = true ∧ un > cutoff then (int64 (-(int64 cutoff)), some NumError.ErrRange)
        else
          let n := int64 un
          (if neg = true then int64 (-n) else n, none)

/-- decodeText decodes text response and returns id;
id = -1 if response can not be parsed. -/
def decodeText (input : Bytes) : Int × Option Error :=
  match ParseInt input 0 64 with
  | (_, some _) => (-1, some Error.ErrMalformedResp)
  | (res, none) => (res, none)

/-! ## The JSON and protobuf decoders

`decodeJson` is `json.Unmarshal(in, resp)` followed by `resp.GetId()`.
`json.Unmarshal` first checks the whole input with the scanner of
encoding/json (`checkValid`) and then decodes the top-level value into the
record. -/

/-- Modelled from the spec: the record SnowizardResponse of the generated
file snowizard.pb.go, which is not under src/ ("the decoded payload shape,
conceptually `{ id: int64 }`").  The field is a pointer in the generated code:
`none` is the field left unset. -/
structure SnowizardResponse where
  Id : Option Int
  deriving DecidableEq, Repr

/-- Modelled from the spec: the getter GetId of the generated file
snowizard.pb.go, which is not under src/: the id, or "the underlying
data-record default (zero value)" when the field is unset. -/
def SnowizardResponse.GetId (m : SnowizardResponse) : Int :=
  match m.Id with
  | some id => id
  | none => 0

/-- What the scanner of encoding/json is inside of: an object before the
colon, an object after the colon, or an array. -/
inductive ParseState where
  | objectKey
  | objectValue
  | arrayValue
  deriving DecidableEq, Repr

/-- The `step` of the scanner of encoding/json: what it expects next. -/
inductive ScanStep where
  | beginValue | beginValueOrEmpty | beginStringOrEmpty | beginString
  | endValue | endTop
  | inString | inStringEsc | inStringEscU | inStringEscU1 | inStringEscU12 | inStringEscU123
  | neg | zero | one | dot | dot0 | exp | expSign | exp0
  | t | tr | tru | f | fa | fal | fals | n | nu | nul
  | error
  deriving DecidableEq, Repr

/-- The scanner of encoding/json: the step, the stack of what it is inside
of (innermost first), whether the top-level value has ended, and whether an
error is recorded. -/
structure Scanner where
  step : ScanStep
  parseState : List ParseState
  endTop : Bool
  err : Bool
  deriving DecidableEq, Repr

/-- The value `maxNestingDepth` of encoding/json. -/
def maxNestingDepth : Nat := 10000

/-- The function `isSpace` of encoding/json. -/
def jsonSpace (c : Nat) : Bool := c = 32 || c = 9 || c = 13 || c = 10

/-- A decimal digit. -/
def isDigit (c : Nat) : Bool := decide (48 ≤ c ∧ c ≤ 57)

/-- A hexadecimal digit. -/
def isHex (c : Nat) : Bool :=
  decide (48 ≤ c ∧ c ≤ 57) || decide (97 ≤ c ∧ c ≤ 102) || decide (65 ≤ c ∧ c ≤ 70)

/-- The scanner after `reset`. -/
def Scanner.reset : Scanner :=
  { step := ScanStep.beginValue, parseState := [], endTop := false, err := false }

/-- The method `error` of the scanner, returning scanError. -/
def Scanner.fail (s : Scanner) : Scanner × Bool :=
  ({ s with step := ScanStep.error, err := true }, true)

/-- Go on with the given step; the code returned is not scanError. -/
def Scanner.goto (s : Scanner) (st : ScanStep) : Scanner × Bool :=
  ({ s with step := st }, false)

/-- The method `pushParseState`. -/
def Scanner.push (s : Scanner) (st : ScanStep) (p : ParseState) : Scanner × Bool :=
  let s1 : Scanner := { s with step := st, parseState := p :: s.parseState }
  if s1.parseState.length ≤ maxNestingDepth then (s1, false) else s1.fail

/-- The method `popParseState`. -/
def Scanner.pop (s : Scanner) : Scanner :=
  match s.parseState.tail with
  | [] => { s with parseState := [], step := ScanStep.endTop, endTop := true }
  | rest => { s with parseState := rest, step := ScanStep.endValue }

/-- The state function stateEndTop: a byte that is not a space after the
top-level value records an error, reported at the next byte or at the end. -/
def stateEndTop (s : Scanner) (c : Nat) : Scanner × Bool :=
  if jsonSpace c then (s, false) else (s.fail.1, false)

/-- The state function stateEndValue. -/
def stateEndValue (s : Scanner) (c : Nat) : Scanner × Bool :=
  match s.parseState with
  | [] => stateEndTop { s with step := ScanStep.endTop, endTop := true } c
  | ps :: rest =>
    if jsonSpace c then s.goto ScanStep.endValue
    else
      match ps with
      | ParseState.objectKey =>
        if c = 58 then
          ({ s with parseState := ParseState.objectValue :: rest, step := ScanStep.beginValue },
            false)
        else s.fail
      | ParseState.objectValue =>
        if c = 44 then
          ({ s with parseState := ParseState.objectKey :: rest, step := ScanStep.beginString },
            false)
        else if c = 125 then (s.pop, false)
        else s.fail
      | ParseState.arrayValue =>
        if c = 44 then s.goto ScanStep.beginValue
        else if c = 93 then (s.pop, false)
        else s.fail

/-- The state function stateBeginValue. -/
def stateBeginValue (s : Scanner) (c : Nat) : Scanner × Bool :=
  if jsonSpace c then (s, false)
  else if c = 123 then s.push ScanStep.beginStringOrEmpty ParseState.objectKey
  else if c = 91 then s.push ScanStep.beginValueOrEmpty ParseState.arrayValue
  else if c = 34 then s.goto ScanStep.inString
  else if c = 45 then s.goto ScanStep.neg
  else if c = 48 then s.goto ScanStep.zero
  else if c = 116 then s.goto ScanStep.t
  else if c = 102 then s.goto ScanStep.f
  else if c = 110 then s.goto ScanStep.n
  else if 49 ≤ c ∧ c ≤ 57 then s.goto ScanStep.one
  else s.fail

/-- The state function stateBeginString. -/
def stateBeginString (s : Scanner) (c : Nat) : Scanner × Bool :=
  if jsonSpace c then (s, false)
  else if c = 34 then s.goto ScanStep.inString
  else s.fail

/-- The state function state0: after a leading zero, or after the digits of
the integer part. -/
def state0 (s : Scanner) (c : Nat) : Scanner × Bool :=
  if c = 46 then s.goto ScanStep.dot
  else if c = 101 ∨ c = 69 then s.goto ScanStep.exp
  else stateEndValue s c

/-- One byte through the scanner: the new scanner, and whether the step
returned scanError. -/
def Scanner.next (s : Scanner) (c : Nat) : Scanner × Bool :=
  match s.step with
  | ScanStep.beginValue => stateBeginValue s c
  | ScanStep.beginValueOrEmpty =>
    if jsonSpace c then (s, false)
    else if c = 93 then stateEndValue s c
    else stateBeginValue s c
  | ScanStep.beginStringOrEmpty =>
    if jsonSpace c then (s, false)
    else if c = 125 then
      stateEndValue { s with parseState := ParseState.objectValue :: s.parseState.tail } c
    else stateBeginString s c
  | ScanStep.beginString => stateBeginString s c
  | ScanStep.endValue => stateEndValue s c
  | ScanStep.endTop => stateEndTop s c
  | ScanStep.inString =>
    if c = 34 then s.goto ScanStep.endValue
    else if c = 92 then s.goto ScanStep.inStringEsc
    else if c < 32 then s.fail
    else (s, false)
  | ScanStep.inStringEsc =>
    if c = 98 ∨ c = 102 ∨ c = 110 ∨ c = 114 ∨ c = 116 ∨ c = 92 ∨ c = 47 ∨ c = 34 then
      s.goto ScanStep.inString
    else if c = 117 then s.goto ScanStep.inStringEscU
    else s.fail
  | ScanStep.inStringEscU => if isHex c then s.goto ScanStep.inStringEscU1 else s.fail
  | ScanStep.inStringEscU1 => if isHex c then s.goto ScanStep.inStringEscU12 else s.fail
  | ScanStep.inStringEscU12 => if isHex c then s.goto ScanStep.inStringEscU123 else s.fail
  | ScanStep.inStringEscU123 => if isHex c then s.goto ScanStep.inString else s.fail
  | ScanStep.neg =>
    if c = 48 then s.goto ScanStep.zero
    else if 49 ≤ c ∧ c ≤ 57 then s.goto ScanStep.one
    else s.fail
  | ScanStep.one => if isDigit c then s.goto ScanStep.one else state0 s c
  | ScanStep.zero => state0 s c
  | ScanStep.dot => if isDigit c then s.goto ScanStep.dot0 else s.fail
  | ScanStep.dot0 =>
    if isDigit c then (s, false)
    else if c = 101 ∨ c = 69 then s.goto ScanStep.exp
    else stateEndValue s c
  | ScanStep.exp =>
    if c = 43 ∨ c = 45 then s.goto ScanStep.expSign
    else if isDigit c then s.goto ScanStep.exp0
    else s.fail
  | ScanStep.expSign => if isDigit c then s.goto ScanStep.exp0 else s.fail
  | ScanStep.exp0 => if isDigit c then (s, false) else stateEndValue s c
  | ScanStep.t => if c = 114 then s.goto ScanStep.tr else s.fail
  | ScanStep.tr => if c = 117 then s.goto ScanStep.tru else s.fail
  | ScanStep.tru => if c = 101 then s.goto ScanStep.endValue else s.fail
  | ScanStep.f => if c = 97 then s.goto ScanStep.fa else s.fail
  | ScanStep.fa => if c = 108 then s.goto ScanStep.fal else s.fail
  | ScanStep.fal => if c = 115 then s.goto ScanStep.fals else s.fail
  | ScanStep.fals => if c = 101 then s.goto ScanStep.endValue else s.fail
  | ScanStep.n => if c = 117 then s.goto ScanStep.nu else s.fail
  | ScanStep.nu => if c = 108 then s.goto ScanStep.nul else s.fail
  | ScanStep.nul => if c = 108 then s.goto ScanStep.endValue else s.fail
  | ScanStep.error => s.fail

/-- The method `eof` of the scanner: whether the input ends well. -/
def Scanner.eof (s : Scanner) : Bool :=
  if s.err then false
  else if s.endTop then true
  else (s.next 32).1.endTop

/-- The loop of `checkValid`: every byte through the scanner, then `eof`. -/
def scanAll : Bytes → Scanner → Bool
  | [], s => s.eof
  | c :: cs, s =>
    match s.next c.toNat with
    | (_, true) => false
    | (s1, false) => scanAll cs s1

/-- The function `checkValid` of encoding/json: whether the data is one
JSON value, white space around it allowed. -/
def checkValid (data : Bytes) : Bool := scanAll data Scanner.reset

/-- The kind of a JSON value, with the text of a number. -/
inductive JsonKind where
  | null
  | bool
  | string
  | number (item : Bytes)
  | array
  | object
  deriving DecidableEq, Repr

/-- The rest of a string literal after its opening quote: the text up to
the closing quote, and what follows the closing quote.  The flag says that
the byte before was the backslash of an escape. -/
def scanString : Bytes → Bool → Bytes × Bytes
  | [], _ => ([], [])
  | c :: cs, true =>
    let r := scanString cs false
    (c :: r.1, r.2)
  | c :: cs, false =>
    if c.toNat = 34 then ([], cs)
    else
      let r := scanString cs (decide (c.toNat = 92))
      (c :: r.1, r.2)

/-- Where the skipping of an array or object is: between tokens, inside a
string, or after the backslash of an escape. -/
inductive SkipMode where
  | plain
  | str
  | esc
  deriving DecidableEq, Repr

/-- The method `skip` of the decoder on valid data: what follows the bracket
that closes the array or object entered `depth` brackets ago. -/
def skipNested : Bytes → Nat → SkipMode → Bytes
  | [], _, _ => []
  | _ :: cs, depth, SkipMode.esc => skipNested cs depth SkipMode.str
  | c :: cs, depth, SkipMode.str =>
    if c.toNat = 34 then skipNested cs depth SkipMode.plain
    else if c.toNat = 92 then skipNested cs depth SkipMode.esc
    else skipNested cs depth SkipMode.str
  | c :: cs, depth, SkipMode.plain =>
    if c.toNat = 34 then skipNested cs depth SkipMode.str
    else if c.toNat = 123 ∨ c.toNat = 91 then skipNested cs (depth + 1) SkipMode.plain
    else if c.toNat = 125 ∨ c.toNat = 93 then
      if depth ≤ 1 then cs else skipNested cs (depth - 1) SkipMode.plain
    else skipNested cs depth SkipMode.plain

/-- A byte of a number literal, as `rescanLiteral` takes them. -/
def isNumberByte (c : UInt8) : Bool :=
  isDigit c.toNat || c.toNat = 46 || c.toNat = 101 || c.toNat = 69 || c.toNat = 43 ||
    c.toNat = 45

/-- White space skipped. -/
def skipSpace (s : Bytes) : Bytes := s.dropWhile fun c => jsonSpace c.toNat

/-- The value that starts at the head of valid data: its kind, and what
follows it. -/
def readValue : Bytes → Option (JsonKind × Bytes)
  | [] => none
  | c :: cs =>
    if c.toNat = 123 then some (JsonKind.object, skipNested cs 1 SkipMode.plain)
    else if c.toNat = 91 then some (JsonKind.array, skipNested cs 1 SkipMode.plain)
    else if c.toNat = 34 then some (JsonKind.string, (scanString cs false).2)
    else if c.toNat = 116 then some (JsonKind.bool, cs.drop 3)
    else if c.toNat = 102 then some (JsonKind.bool, cs.drop 4)
    else if c.toNat = 110 then some (JsonKind.null, cs.drop 3)
    else some (JsonKind.number (c :: cs.takeWhile isNumberByte), cs.dropWhile isNumberByte)

/-- The members of an object of valid data, from after its opening brace (or
after a comma): the text of each key and the kind of its value, in order.
The fuel bounds the number of members. -/
def readMembers : Nat → Bytes → List (Bytes × JsonKind)
  | 0, _ => []
  | fuel + 1, s =>
    match skipSpace s with
    | [] => []
    | c :: cs =>
      if c.toNat = 34 then
        let k := scanString cs false
        match readValue (skipSpace ((skipSpace k.2).drop 1)) with
        | none => []
        | some (kind, rest) =>
          match skipSpace rest with
          | [] => [(k.1, kind)]
          | c1 :: rest1 =>
            if c1.toNat = 44 then (k.1, kind) :: readMembers fuel rest1
            else [(k.1, kind)]
      else []

/-- The value of a hexadecimal digit. -/
def hexVal (c : Nat) : Nat :=
  if 48 ≤ c ∧ c ≤ 57 then c - 48
  else if 97 ≤ c ∧ c ≤ 102 then c - 87
  else if 65 ≤ c ∧ c ≤ 70 then c - 55
  else 0

/-- The byte an escape other than `u` stands for. -/
def escapeByte (c : Nat) : Nat :=
  if c = 98 then 8
  else if c = 102 then 12
  else if c = 110 then 10
  else if c = 114 then 13
  else if c = 116 then 9
  else c

/-- The unquoted key as far as matching a field name of ASCII letters needs
it: for each character of the key text its byte when it unquotes to one
ASCII byte, and `none` for a byte or escape outside ASCII (which unquotes to
bytes outside ASCII). -/
def keyUnits : Bytes → List (Option Nat)
  | [] => []
  | [c] => [if c.toNat < 128 then some c.toNat else none]
  | c :: e :: cs =>
    if c.toNat = 92 then
      if e.toNat = 117 then
        match cs with
        | h1 :: h2 :: h3 :: h4 :: rest =>
          let v := ((hexVal h1.toNat * 16 + hexVal h2.toNat) * 16 + hexVal h3.toNat) * 16
            + hexVal h4.toNat
          (if v < 128 then some v else none) :: keyUnits rest
        | _ => [none]
      else some (escapeByte e.toNat) :: keyUnits cs
    else (if c.toNat < 128 then some c.toNat else none) :: keyUnits (e :: cs)

/-- Whether the key names the field `id` of SnowizardResponse: equal to `id`
exactly or under case folding. -/
def isIdKey (key : Bytes) : Bool :=
  match keyUnits key with
  | [some a, some b] => (a = 105 || a = 73) && (b = 100 || b = 68)
  | _ => false

/-- One member stored into the record: a member named `id` sets the field
from a number that `strconv.ParseInt(item, 10, 64)` accepts, unsets it on
null, and records an error (the flag) on any other value; other members are
skipped. -/
def storeMember (acc : SnowizardResponse × Bool) (m : Bytes × JsonKind) :
    SnowizardResponse × Bool :=
  if isIdKey m.1 then
    match m.2 with
    | JsonKind.null => ({ Id := none }, acc.2)
    | JsonKind.number item =>
      match ParseInt item 10 64 with
      | (n, none) => ({ Id := some n }, acc.2)
      | (_, some _) => ({ Id := some 0 }, true)
    | _ => ({ Id := some 0 }, true)
  else acc

/-- Modelled from the spec: `json.Unmarshal` of Go's standard library into a
fresh SnowizardResponse; the library is not under src/ ("parses the body as a
JSON object and extracts an integer field conventionally named `id`").  The
definition follows the library: invalid data is an error; null leaves the
record as it is; an object stores its members; any other value is an error.
`none` is a non-nil error. -/
def jsonUnmarshal (data : Bytes) : Option SnowizardResponse :=
  if checkValid data = false then none
  else
    match skipSpace data with
    | [] => none
    | c :: cs =>
      if c.toNat = 123 then
        match (readMembers data.length cs).foldl storeMember ({ Id := none }, false) with
        | (resp, false) => some resp
        | (_, true) => none
      else if c.toNat = 110 then some { Id := none }
      else none

/-- decodeJson decodes json response and returns id;
id = -1 if response can not be parsed. -/
def decodeJson (input : Bytes) : Int × Option Error :=
  match jsonUnmarshal input with
  | none => (-1, some Error.ErrMalformedResp)
  | some resp => (resp.GetId, none)

/-- decodeProtobuf decodes protobuf response and returns id;
id = -1 if response can not be parsed.  `proto.Unmarshal` of the goprotobuf
library, which is not under src/, is the parameter `protoUnmarshal`: `none`
is a non-nil error. -/
def decodeProtobuf (protoUnmarshal : Bytes → Option SnowizardResponse) (input : Bytes) :
    Int × Option Error :=
  match protoUnmarshal input with
  | none => (-1, some Error.ErrMalformedResp)
  | some resp => (resp.GetId, none)

/-! ## The client and `Next` -/

/-- NewSnowizardTextClient returns a client using the provided hosts, with
content-type text/plain and decodeRespFn decodeText.  The connect timeout
configures the transport, whose behaviour is the `World` of a call. -/
def NewSnowizardTextClient (hosts : List String) (_connectTimeout : Nat) : SnowizardClient :=
  { Hosts := hosts, decodeRespFn := decodeText, contentType := TextContentType }

/-- NewSnowizardJsonClient returns a client using the provided hosts, with
content-type application/json and decodeRespFn decodeJson. -/
def NewSnowizardJsonClient (hosts : List String) (_connectTimeout : Nat) : SnowizardClient :=
  { Hosts := hosts, decodeRespFn := decodeJson, contentType := JsonContentType }

/-- NewSnowizardProtobufClient returns a client using the provided hosts,
with content-type application/x-protobuf and decodeRespFn decodeProtobuf. -/
def NewSnowizardProtobufClient (protoUnmarshal : Bytes → Option SnowizardResponse)
    (hosts : List String) (_connectTimeout : Nat) : SnowizardClient :=
  { Hosts := hosts, decodeRespFn := decodeProtobuf protoUnmarshal,
    contentType := ProtobufContentType }

/-- The request built at the head of the loop body: a GET of `http://<host>`
with the two headers added. -/
def mkRequest (contentType host : String) : Request :=
  { Method := "GET"
    URL := "http://" ++ host
    Header := [("Content-Type", contentType), ("User-Agent", UserAgent)] }

/-- The loop of `Next` from iteration `i` on, over the hosts still to try. -/
def nextLoop (s : SnowizardClient) (w : World) : Nat → List String → Effects → Exit × Effects
  | _, [], e => (Exit.returned (-1) (some Error.ErrNoServers), e.runDeferred)
  | i, host :: rest, e =>
    match w i with
    | Attempt.newRequestErr =>
      -- `req` is nil and `req.Header.Add` dereferences it
      (Exit.panicked, e.runDeferred)
    | Attempt.doErr =>
      nextLoop s w (i + 1) rest
        { e with requested := e.requested ++ [mkRequest s.contentType host] }
    | Attempt.resp r =>
      let e1 : Effects :=
        { e with requested := e.requested ++ [mkRequest s.contentType host]
                 opened := e.opened ++ [i] }
      if r.StatusCode ≠ StatusOK then
        nextLoop s w (i + 1) rest e1
      else
        let e2 : Effects := { e1 with deferred := i :: e1.deferred }
        match r.Body with
        | none => nextLoop s w (i + 1) rest e2
        | some body =>
          match s.decodeRespFn body with
          | (_, some _) => nextLoop s w (i + 1) rest e2
          | (id, none) => (Exit.returned id none, e2.runDeferred)

/-- `SnowizardClient.Next`, with its effects. -/
def NextRun (s : SnowizardClient) (w : World) : Exit × Effects :=
  nextLoop s w 0 s.Hosts Effects.init

/-- `SnowizardClient.Next`: what the caller gets. -/
def Next (s : SnowizardClient) (w : World) : Exit :=
  (NextRun s w).1

/-! ## The canonical base-10 rendering

What the server writes for text/plain and what `strconv.FormatInt(n, 10)`
prints: an optional minus sign and the decimal digits, most significant
first, with no leading zero. -/

/-- The ASCII digit of `d`. -/
def digitByte (d : Nat) : UInt8 := UInt8.ofNat (48 + d)

/-- The decimal digits of a natural number, most significant first. -/
def formatUint (n : Nat) : Bytes :=
  if n = 0 then [48] else (Nat.digits 10 n).reverse.map digitByte

/-- The canonical base-10 rendering of an integer. -/
def formatInt (n : Int) : Bytes :=
  if n < 0 then 45 :: formatUint n.natAbs else formatUint n.natAbs

/-- The value of a run of decimal digits read after the value `acc`. -/
def decVal : Nat → List Nat → Nat
  | acc, [] => acc
  | acc, d :: ds => decVal (acc * 10 + d) ds

/-- ASCII white space: space, tab, line feed, carriage return. -/
def isSpace (c : UInt8) : Prop := c.toNat = 32 ∨ c.toNat = 9 ∨ c.toNat = 10 ∨ c.toNat = 13

/-! ## Scripted networks used as concrete inputs -/

/-- Every attempt gets the same outcome. -/
def always (a : Attempt) : World := fun _ => a

/-- The first attempt gets `a`, every later one `b`. -/
def firstThen (a b : Attempt) : World := fun i => if i = 0 then a else b

/-- The attempts are those of the list, in order; a transport error after
the end of the list. -/
def script (l : List Attempt) : World := fun i => l.getD i Attempt.doErr

/-- A 200 response with the given text as body. -/
def ok200 (body : String) : Attempt := Attempt.resp ⟨200, some (bytes body)⟩

/-- A 500 response with an empty body. -/
def status500 : Attempt := Attempt.resp ⟨500, some []⟩

/-! ## Vocabulary of the statements -/

/-- The attempt fails in one of the four ways the loop recovers from:
transport error, non-200 status, body-read error, decode error. -/
inductive Failed (dec : Bytes → Int × Option Error) : Attempt → Prop where
  | transport : Failed dec Attempt.doErr
  | status (r : Response) : r.StatusCode ≠ StatusOK → Failed dec (Attempt.resp r)
  | read (r : Response) : r.StatusCode = StatusOK → r.Body = none → Failed dec (Attempt.resp r)
  | decode (r : Response) (body : Bytes) : r.StatusCode = StatusOK → r.Body = some body →
      (dec body).2 ≠ none → Failed dec (Attempt.resp r)

/-- The attempt yields a 200 response whose body the decoder decodes, without
error, to `id`. -/
def Succeeded (dec : Bytes → Int × Option Error) (a : Attempt) (id : Int) : Prop :=
  ∃ body, a = Attempt.resp ⟨StatusOK, some body⟩ ∧ dec body = (id, none)

/-! ## The failover loop -/

theorem nextLoop_nil (s : SnowizardClient) (w : World) (i : Nat) (e : Effects) :
    nextLoop s w i [] e = (Exit.returned (-1) (some Error.ErrNoServers), e.runDeferred) := by
  simp [nextLoop]

/-- One failed attempt: the loop goes on with the next host, having handed
exactly this host's request to the transport. -/
theorem nextLoop_failed_step (s : SnowizardClient) (w : World) (i : Nat) (host : String)
    (rest : List String) (e : Effects) (h : Failed s.decodeRespFn (w i)) :
    ∃ e1 : Effects, nextLoop s w i (host :: rest) e = nextLoop s w (i + 1) rest e1 ∧
      e1.requested = e.requested ++ [mkRequest s.contentType host] := by
  generalize hw : w i = a at h
  cases h with
  | transport => exact ⟨_, by simp [nextLoop, hw]; rfl, rfl⟩
  | status r hr => exact ⟨_, by simp [nextLoop, hw, hr]; rfl, rfl⟩
  | read r hr hb => exact ⟨_, by simp [nextLoop, hw, hr, hb]; rfl, rfl⟩
  | decode r body hr hb hd =>
    cases hdec : s.decodeRespFn body with
    | mk id err =>
      cases err with
      | none => simp [hdec] at hd
      | some er => exact ⟨_, by simp [nextLoop, hw, hr, hb, hdec]; rfl, rfl⟩

/-- A run of failed attempts: the loop reaches the hosts after them, having
requested each of the failed hosts once, in order. -/
theorem nextLoop_failed_prefix (s : SnowizardClient) (w : World) (pre : List String) :
    ∀ (i : Nat) (rest : List String) (e : Effects),
      (∀ j, j < pre.length → Failed s.decodeRespFn (w (i + j))) →
      ∃ e1 : Effects, nextLoop s w i (pre ++ rest) e = nextLoop s w (i + pre.length) rest e1 ∧
        e1.requested = e.requested ++ pre.map (mkRequest s.contentType) := by
  induction pre with
  | nil => intro i rest e _; exact ⟨e, by simp, by simp⟩
  | cons host pre ih =>
    intro i rest e h
    obtain ⟨e1, h1, hr1⟩ := nextLoop_failed_step s w i host (pre ++ rest) e (by simpa using h 0 (by simp))
    obtain ⟨e2, h2, hr2⟩ := ih (i + 1) rest e1 (fun j hj => by
      have := h (j + 1) (by simpa using hj)
      rwa [show i + (j + 1) = i + 1 + j by omega] at this)
    refine ⟨e2, ?_, ?_⟩
    · rw [List.cons_append, h1, h2]
      congr 1
      simp only [List.length_cons]
      omega
    · rw [hr2, hr1]; simp

/-- A successful attempt: the loop returns the decoded id at once, having
requested this host and none after it. -/
theorem nextLoop_success_step (s : SnowizardClient) (w : World) (i : Nat) (host : String)
    (rest : List String) (e : Effects) (id : Int) (h : Succeeded s.decodeRespFn (w i) id) :
    ∃ e1 : Effects, nextLoop s w i (host :: rest) e = (Exit.returned id none, e1) ∧
      e1.requested = e.requested ++ [mkRequest s.contentType host] := by
  obtain ⟨body, hw, hd⟩ := h
  exact ⟨_, by simp [nextLoop, hw, hd]; rfl, rfl⟩

/-- When every attempt fails the loop ends in `(-1, ErrNoServers)`, every
host requested once, in order. -/
theorem nextRun_all_failed (s : SnowizardClient) (w : World)
    (h : ∀ j, j < s.Hosts.length → Failed s.decodeRespFn (w j)) :
    ∃ e1 : Effects, NextRun s w = (Exit.returned (-1) (some Error.ErrNoServers), e1) ∧
      e1.requested = s.Hosts.map (mkRequest s.contentType) := by
  obtain ⟨e1, h1, hr1⟩ := nextLoop_failed_prefix s w s.Hosts 0 [] Effects.init
    (fun j hj => by simpa using h j hj)
  refine ⟨e1.runDeferred, ?_, ?_⟩
  · unfold NextRun
    rw [← List.append_nil s.Hosts, h1, nextLoop_nil]
  · simp [Effects.runDeferred, hr1, Effects.init]

/-- When the attempts before position `k` fail and the one at `k` succeeds,
the loop returns its id, the hosts up to `k` requested once, in order. -/
theorem nextRun_first_success (s : SnowizardClient) (w : World) (k : Nat) (id : Int)
    (hk : k < s.Hosts.length)
    (hpre : ∀ j, j < k → Failed s.decodeRespFn (w j))
    (hk1 : Succeeded s.decodeRespFn (w k) id) :
    ∃ e1 : Effects, NextRun s w = (Exit.returned id none, e1) ∧
      e1.requested = (s.Hosts.take (k + 1)).map (mkRequest s.contentType) := by
  have hsplit : s.Hosts = s.Hosts.take k ++ (s.Hosts.get ⟨k, hk⟩ :: s.Hosts.drop (k + 1)) := by
    rw [List.get_eq_getElem, List.getElem_cons_drop, List.take_append_drop]
  have hlen : (s.Hosts.take k).length = k := by
    rw [List.length_take]; omega
  obtain ⟨e1, h1, hr1⟩ := nextLoop_failed_prefix s w (s.Hosts.take k) 0
    (s.Hosts.get ⟨k, hk⟩ :: s.Hosts.drop (k + 1)) Effects.init
    (fun j hj => by rw [hlen] at hj; simpa using hpre j hj)
  rw [hlen, Nat.zero_add] at h1
  obtain ⟨e2, h2, hr2⟩ := nextLoop_success_step s w k (s.Hosts.get ⟨k, hk⟩)
    (s.Hosts.drop (k + 1)) e1 id hk1
  refine ⟨e2, ?_, ?_⟩
  · unfold NextRun
    rw [hsplit, h1, h2]
  · rw [hr2, hr1]
    simp only [Effects.init, List.nil_append]
    rw [← List.map_singleton, ← List.map_append]
    congr 1
    rw [List.take_succ, List.get_eq_getElem]
    simp [List.getElem?_eq_getElem hk]

/-! ## The text decoder: digits -/

theorem digitByte_toNat (d : Nat) (hd : d < 10) : (digitByte d).toNat = 48 + d := by
  unfold digitByte
  rw [UInt8.toNat_ofNat_of_lt]
  simp only [UInt8.size]; omega

theorem digitVal_digit (d : Nat) (hd : d < 10) : digitVal (48 + d) = some d := by
  unfold digitVal
  rw [if_pos (by omega)]
  simp

theorem decVal_ge (ds : List Nat) : ∀ acc, acc ≤ decVal acc ds := by
  induction ds with
  | nil => intro acc; simp [decVal]
  | cons d ds ih =>
    intro acc
    have := ih (acc * 10 + d)
    simp only [decVal]
    omega

theorem decVal_append_singleton (ds : List Nat) (d : Nat) :
    ∀ acc, decVal acc (ds ++ [d]) = decVal acc ds * 10 + d := by
  induction ds with
  | nil => intro acc; simp [decVal]
  | cons x ds ih => intro acc; simp [decVal, ih]

theorem decVal_reverse_digits (L : List Nat) : decVal 0 L.reverse = Nat.ofDigits 10 L := by
  induction L with
  | nil => simp [decVal]
  | cons d L ih =>
    rw [List.reverse_cons, decVal_append_singleton, ih, Nat.ofDigits_cons]
    ring

/-- The digit loop reads a run of decimal digits to its value, as long as
the value fits 64 bits. -/
theorem parseDigits_decimal (b0 : Bool) (us : Bool) (ds : List Nat) :
    ∀ acc, (∀ d ∈ ds, d < 10) → decVal acc ds < 2 ^ 64 →
      parseDigits 10 b0 (maxUint64 / 10 + 1) (2 ^ 64 - 1) (ds.map digitByte) acc us
        = .ok (decVal acc ds, us) := by
  induction ds with
  | nil => intro acc _ _; simp [parseDigits, decVal]
  | cons d ds ih =>
    intro acc hd hv
    have hd10 : d < 10 := hd d (by simp)
    have hge := decVal_ge ds (acc * 10 + d)
    simp only [decVal] at hv ⊢
    have hstep := ih (acc * 10 + d) (fun x hx => hd x (by simp [hx])) hv
    simp only [List.map_cons, parseDigits, digitByte_toNat d hd10, digitVal_digit d hd10]
    have h1 : ¬ (48 + d = 95 ∧ b0 = true) := by omega
    have h2 : ¬ (d ≥ 10 % 256) := by omega
    have h3 : ¬ (acc ≥ maxUint64 / 10 + 1) := by
      simp only [maxUint64]; omega
    have h4 : acc * 10 % 2 ^ 64 = acc * 10 := Nat.mod_eq_of_lt (by omega)
    have h5 : (acc * 10 + d) % 2 ^ 64 = acc * 10 + d := Nat.mod_eq_of_lt (by omega)
    rw [if_neg h1]
    simp only [if_neg h2, if_neg h3, h4, h5]
    rw [if_neg (by omega)]
    exact hstep

/-- On a run of decimal digits the digit loop either reads the value or
stops with the range error and the maximal value. -/
theorem parseDigits_decimal_or_range (b0 : Bool) (us : Bool) (ds : List Nat) :
    ∀ acc, (∀ d ∈ ds, d < 10) →
      parseDigits 10 b0 (maxUint64 / 10 + 1) (2 ^ 64 - 1) (ds.map digitByte) acc us
          = .ok (decVal acc ds, us) ∨
        parseDigits 10 b0 (maxUint64 / 10 + 1) (2 ^ 64 - 1) (ds.map digitByte) acc us
          = .error (2 ^ 64 - 1, NumError.ErrRange) := by
  induction ds with
  | nil => intro acc _; simp [parseDigits, decVal]
  | cons d ds ih =>
    intro acc hd
    have hd10 : d < 10 := hd d (by simp)
    simp only [List.map_cons, parseDigits, digitByte_toNat d hd10, digitVal_digit d hd10, decVal]
    have h1 : ¬ (48 + d = 95 ∧ b0 = true) := by omega
    have h2 : ¬ (d ≥ 10 % 256) := by omega
    rw [if_neg h1]
    simp only [if_neg h2]
    by_cases h3 : acc ≥ maxUint64 / 10 + 1
    · simp [if_pos h3]
    · have h3b : acc * 10 < 2 ^ 64 := by
        simp only [maxUint64] at h3; omega
      have h4 : acc * 10 % 2 ^ 64 = acc * 10 := Nat.mod_eq_of_lt h3b
      simp only [if_neg h3, h4]
      by_cases hov : acc * 10 + d < 2 ^ 64
      · have h5 : (acc * 10 + d) % 2 ^ 64 = acc * 10 + d := Nat.mod_eq_of_lt hov
        rw [h5, if_neg (by omega)]
        exact ih (acc * 10 + d) (fun x hx => hd x (by simp [hx]))
      · rw [if_pos (by omega)]
        simp

/-! ## The text decoder: `ParseUint` and `ParseInt` on decimal literals -/

/-- For base 0 and 64 bits, on a run of decimal digits that does not start
with the digit zero, `ParseUint` is its digit loop in base 10. -/
theorem ParseUint_decimal (d0 : Nat) (ds : List Nat) (h0 : d0 ≠ 0) (h0lt : d0 < 10) :
    ParseUint ((d0 :: ds).map digitByte) 0 64 =
      match parseDigits 10 true (maxUint64 / 10 + 1) (2 ^ 64 - 1)
          ((d0 :: ds).map digitByte) 0 false with
      | .error (v, e) => (v, some e)
      | .ok (n, underscores) =>
        if underscores = true ∧ underscoreOK ((d0 :: ds).map digitByte) = false then
          (0, some NumError.ErrSyntax)
        else (n, none) := by
  have hne : ¬ (48 + d0 = 48) := by omega
  simp [ParseUint, prefixBase, digitByte_toNat d0 h0lt, hne, IntSize]

/-- The digits of a non-zero number, most significant first: a non-zero
leading digit, digits below ten, and the number as their value. -/
theorem digits_reverse_spec (n : Nat) (hn : n ≠ 0) :
    ∃ d0 ds, (Nat.digits 10 n).reverse = d0 :: ds ∧ d0 ≠ 0 ∧
      (∀ d ∈ d0 :: ds, d < 10) ∧ decVal 0 (d0 :: ds) = n := by
  have hnil : Nat.digits 10 n ≠ [] := Nat.digits_ne_nil_iff_ne_zero.mpr hn
  have hlast := Nat.getLast_digit_ne_zero 10 hn
  cases hrev : (Nat.digits 10 n).reverse with
  | nil => simp at hrev; exact absurd hrev hnil
  | cons d0 ds =>
    refine ⟨d0, ds, rfl, ?_, ?_, ?_⟩
    · have hh : (Nat.digits 10 n).getLast hnil = d0 := by
        rw [List.getLast_eq_head_reverse]
        simp [hrev]
      rw [← hh]; exact hlast
    · intro d hd
      have hmem : d ∈ Nat.digits 10 n := by
        rw [← List.mem_reverse, hrev]; exact hd
      exact Nat.digits_lt_base (by norm_num) hmem
    · rw [← hrev, decVal_reverse_digits, Nat.ofDigits_digits]

/-- `ParseUint` reads the canonical rendering of a 64-bit unsigned number
back to the number. -/
theorem ParseUint_formatUint (n : Nat) (hn : n < 2 ^ 64) :
    ParseUint (formatUint n) 0 64 = (n, none) := by
  by_cases h0 : n = 0
  · subst h0; decide
  · obtain ⟨d0, ds, hrev, hd0, hlt, hval⟩ := digits_reverse_spec n h0
    have hloop := parseDigits_decimal true false (d0 :: ds) 0 hlt (by rw [hval]; exact hn)
    simp only [formatUint, if_neg h0, hrev]
    rw [ParseUint_decimal d0 ds hd0 (hlt d0 (by simp)), hloop, hval]
    simp

/-- On the canonical rendering of any natural number `ParseUint` either
reads the number, or reports the range error with the maximal value. -/
theorem ParseUint_formatUint_or_range (n : Nat) :
    ParseUint (formatUint n) 0 64 = (n, none) ∨
      ParseUint (formatUint n) 0 64 = (2 ^ 64 - 1, some NumError.ErrRange) := by
  by_cases h0 : n = 0
  · subst h0; left; decide
  · obtain ⟨d0, ds, hrev, hd0, hlt, hval⟩ := digits_reverse_spec n h0
    simp only [formatUint, if_neg h0, hrev]
    rw [ParseUint_decimal d0 ds hd0 (hlt d0 (by simp))]
    rcases parseDigits_decimal_or_range true false (d0 :: ds) 0 hlt with hloop | hloop
    · left; rw [hloop, hval]; simp
    · right; rw [hloop]

/-- The first byte of the canonical rendering of a natural number is a
digit, so neither sign. -/
theorem formatUint_head (n : Nat) :
    ∃ c cs, formatUint n = c :: cs ∧ c.toNat ≠ 43 ∧ c.toNat ≠ 45 := by
  by_cases h0 : n = 0
  · subst h0; exact ⟨48, [], by decide, by decide, by decide⟩
  · obtain ⟨d0, ds, hrev, hd0, hlt, hval⟩ := digits_reverse_spec n h0
    refine ⟨digitByte d0, ds.map digitByte, by simp [formatUint, h0, hrev], ?_, ?_⟩
    · rw [digitByte_toNat d0 (hlt d0 (by simp))]; have := hlt d0 (by simp); omega
    · rw [digitByte_toNat d0 (hlt d0 (by simp))]; have := hlt d0 (by simp); omega

/-- The signed cutoff of `ParseInt` for 64 bits. -/
theorem ParseInt_cutoff :
    (2 : Nat) ^ ((if (64 : Int) = 0 then IntSize else 64) - 1).toNat % 2 ^ 64 = 2 ^ 63 := by
  have h : ((if (64 : Int) = 0 then IntSize else 64) - 1).toNat = 63 := by
    rw [if_neg (by norm_num)]; rfl
  rw [h]
  norm_num

/-- `ParseInt` with base 0 and 64 bits on a string without a sign, in terms
of what `ParseUint` returns for it. -/
theorem ParseInt_unsigned (c : UInt8) (cs : Bytes) (h43 : c.toNat ≠ 43) (h45 : c.toNat ≠ 45)
    (un : Nat) (err : Option NumError) (hu : ParseUint (c :: cs) 0 64 = (un, err)) :
    ParseInt (c :: cs) 0 64 =
      if err ≠ none ∧ err ≠ some NumError.ErrRange then (0, err)
      else if un ≥ 2 ^ 63 then (int64 (2 ^ 63 - 1), some NumError.ErrRange)
      else (int64 un, none) := by
  simp only [ParseInt, h43, h45, or_self, if_false, hu, decide_False, ParseInt_cutoff]
  simp

/-- `ParseInt` with base 0 and 64 bits on a string with a minus sign, in
terms of what `ParseUint` returns for the rest. -/
theorem ParseInt_minus (cs : Bytes)
    (un : Nat) (err : Option NumError) (hu : ParseUint cs 0 64 = (un, err)) :
    ParseInt (45 :: cs) 0 64 =
      if err ≠ none ∧ err ≠ some NumError.ErrRange then (0, err)
      else if un > 2 ^ 63 then (int64 (-(int64 (2 ^ 63))), some NumError.ErrRange)
      else (int64 (-(int64 un)), none) := by
  have h45 : (45 : UInt8).toNat = 45 := rfl
  simp only [ParseInt, h45, ParseInt_cutoff]
  simp [hu]

/-- `ParseInt` reads the canonical rendering of a 64-bit signed integer back
to the integer. -/
theorem ParseInt_formatInt (n : Int) (hlo : -2 ^ 63 ≤ n) (hhi : n < 2 ^ 63) :
    ParseInt (formatInt n) 0 64 = (n, none) := by
  by_cases hneg : n < 0
  · have hm : n.natAbs ≤ 2 ^ 63 := by omega
    rw [formatInt, if_pos hneg,
      ParseInt_minus _ n.natAbs none (ParseUint_formatUint n.natAbs (by omega))]
    have hval : int64 (-(int64 (n.natAbs : Int))) = n := by
      unfold int64; omega
    simp only [ne_eq, not_true_eq_false, false_and, if_false]
    rw [if_neg (by omega), hval]
  · have hm : n.natAbs < 2 ^ 63 := by omega
    obtain ⟨c, cs, hcs, h43, h45⟩ := formatUint_head n.natAbs
    have hu := ParseUint_formatUint n.natAbs (by omega)
    rw [formatInt, if_neg hneg, hcs]
    rw [hcs] at hu
    rw [ParseInt_unsigned c cs h43 h45 n.natAbs none hu]
    have hval : int64 (n.natAbs : Int) = n := by
      unfold int64; omega
    simp only [ne_eq, not_true_eq_false, false_and, if_false]
    rw [if_neg (by omega), hval]

/-- `ParseInt` reports the range error on the canonical rendering of every
integer outside the 64-bit signed range. -/
theorem ParseInt_formatInt_out_of_range (n : Int) (h : n < -2 ^ 63 ∨ 2 ^ 63 ≤ n) :
    (ParseInt (formatInt n) 0 64).2 = some NumError.ErrRange := by
  by_cases hneg : n < 0
  · have hm : n.natAbs > 2 ^ 63 := by omega
    rw [formatInt, if_pos hneg]
    rcases ParseUint_formatUint_or_range n.natAbs with hu | hu
    · rw [ParseInt_minus _ _ _ hu]
      simp only [ne_eq, not_true_eq_false, false_and, if_false]
      rw [if_pos hm]
    · rw [ParseInt_minus _ _ _ hu]
      simp
  · have hm : n.natAbs ≥ 2 ^ 63 := by omega
    obtain ⟨c, cs, hcs, h43, h45⟩ := formatUint_head n.natAbs
    rw [formatInt, if_neg hneg, hcs]
    rcases ParseUint_formatUint_or_range n.natAbs with hu | hu
    · rw [hcs] at hu
      rw [ParseInt_unsigned c cs h43 h45 _ _ hu]
      simp only [ne_eq, not_true_eq_false, false_and, if_false]
      rw [if_pos hm]
    · rw [hcs] at hu
      rw [ParseInt_unsigned c cs h43 h45 _ _ hu]
      simp

/-! ## The text decoder: what does not parse -/

theorem isSpace_not_digit (c : UInt8) (h : isSpace c) :
    c.toNat ≠ 95 ∧ c.toNat ≠ 48 ∧ c.toNat ≠ 43 ∧ c.toNat ≠ 45 ∧ digitVal c.toNat = none ∧
      lower c.toNat ≠ 98 ∧ lower c.toNat ≠ 111 ∧ lower c.toNat ≠ 120 := by
  rcases h with h | h | h | h <;> rw [h] <;> decide

/-- The digit loop stops with an error on a string that holds white space. -/
theorem parseDigits_space (base : Nat) (b0 : Bool) (cutoff maxVal : Nat) (cs : Bytes) :
    ∀ (n : Nat) (us : Bool), (∃ c ∈ cs, isSpace c) →
      ∃ v e, parseDigits base b0 cutoff maxVal cs n us = .error (v, e) := by
  induction cs with
  | nil => intro n us h; simp at h
  | cons c cs ih =>
    intro n us h
    by_cases hc : isSpace c
    · obtain ⟨h95, _, _, _, hdv, _⟩ := isSpace_not_digit c hc
      exact ⟨0, NumError.ErrSyntax, by simp [parseDigits, h95, hdv]⟩
    · have hrest : ∃ x ∈ cs, isSpace x := by
        obtain ⟨x, hx, hsx⟩ := h
        rcases List.mem_cons.mp hx with rfl | hx
        · exact absurd hsx hc
        · exact ⟨x, hx, hsx⟩
      rw [parseDigits]
      by_cases h1 : c.toNat = 95 ∧ b0 = true
      · rw [if_pos h1]; exact ih n true hrest
      · rw [if_neg h1]
        cases digitVal c.toNat with
        | none => exact ⟨_, _, rfl⟩
        | some d =>
          simp only []
          by_cases h2 : d ≥ base % 256
          · rw [if_pos h2]; exact ⟨_, _, rfl⟩
          · rw [if_neg h2]
            by_cases h3 : n ≥ cutoff
            · rw [if_pos h3]; exact ⟨_, _, rfl⟩
            · rw [if_neg h3]
              by_cases h4 : (n * base % 2 ^ 64 + d) % 2 ^ 64 < n * base % 2 ^ 64 ∨
                  (n * base % 2 ^ 64 + d) % 2 ^ 64 > maxVal
              · rw [if_pos h4]; exact ⟨_, _, rfl⟩
              · rw [if_neg h4]; exact ih _ us hrest

/-- A range error of the digit loop comes with the maximal value. -/
theorem parseDigits_range_value (base : Nat) (b0 : Bool) (cutoff maxVal : Nat) (cs : Bytes) :
    ∀ (n : Nat) (us : Bool) (v : Nat),
      parseDigits base b0 cutoff maxVal cs n us = .error (v, NumError.ErrRange) → v = maxVal := by
  induction cs with
  | nil => intro n us v h; simp [parseDigits] at h
  | cons c cs ih =>
    intro n us v h
    rw [parseDigits] at h
    by_cases h1 : c.toNat = 95 ∧ b0 = true
    · rw [if_pos h1] at h; exact ih n true v h
    · rw [if_neg h1] at h
      cases hd : digitVal c.toNat with
      | none => simp [hd] at h
      | some d =>
        simp only [hd] at h
        by_cases h2 : d ≥ base % 256
        · rw [if_pos h2] at h; simp at h
        · rw [if_neg h2] at h
          by_cases h3 : n ≥ cutoff
          · rw [if_pos h3] at h; simp at h; exact h.symm
          · rw [if_neg h3] at h
            by_cases h4 : (n * base % 2 ^ 64 + d) % 2 ^ 64 < n * base % 2 ^ 64 ∨
                (n * base % 2 ^ 64 + d) % 2 ^ 64 > maxVal
            · rw [if_pos h4] at h; simp at h; exact h.symm
            · rw [if_neg h4] at h; exact ih _ us v h

/-- White space survives the removal of a base prefix. -/
theorem prefixBase_space (s : Bytes) (h : ∃ c ∈ s, isSpace c) :
    ∃ c ∈ (prefixBase s).2, isSpace c := by
  obtain ⟨x, hx, hsx⟩ := h
  obtain ⟨_, hx48, _, _, _, hb, ho, hxx⟩ := isSpace_not_digit x hsx
  refine ⟨x, ?_, hsx⟩
  match s, hx with
  | [c0], hx =>
    have : x = c0 := by simpa using hx
    subst this
    simp [prefixBase, hx48]
  | [c0, c1], hx =>
    by_cases h0 : c0.toNat = 48
    · have hne : x ≠ c0 := fun e => hx48 (e ▸ h0)
      simpa [prefixBase, h0, hne] using hx
    · simpa [prefixBase, h0] using hx
  | c0 :: c1 :: c2 :: rest, hx =>
    by_cases h0 : c0.toNat = 48
    · have hne : x ≠ c0 := fun e => hx48 (e ▸ h0)
      have hx1 : x ∈ c1 :: c2 :: rest := by simpa [hne] using hx
      by_cases hb1 : lower c1.toNat = 98
      · have hne1 : x ≠ c1 := fun e => hb (e ▸ hb1)
        simpa [prefixBase, h0, hb1, hne1] using hx1
      · by_cases ho1 : lower c1.toNat = 111
        · have hne1 : x ≠ c1 := fun e => ho (e ▸ ho1)
          simpa [prefixBase, h0, hb1, ho1, hne1] using hx1
        · by_cases hx2 : lower c1.toNat = 120
          · have hne1 : x ≠ c1 := fun e => hxx (e ▸ hx2)
            simpa [prefixBase, h0, hb1, ho1, hx2, hne1] using hx1
          · simpa [prefixBase, h0, hb1, ho1, hx2] using hx1
    · simpa [prefixBase, h0] using hx

/-- For base 0 and 64 bits `ParseUint` is its digit loop, in the base of
the prefix, followed by the check of the underscores. -/
theorem ParseUint_base0 (s : Bytes) (hs : s ≠ []) :
    ParseUint s 0 64 =
      match parseDigits (prefixBase s).1 true (maxUint64 / (prefixBase s).1 + 1) (2 ^ 64 - 1)
          (prefixBase s).2 0 false with
      | .error (v, e) => (v, some e)
      | .ok (n, underscores) =>
        if underscores = true ∧ underscoreOK s = false then (0, some NumError.ErrSyntax)
        else (n, none) := by
  have hmax : (2 ^ (if (64 : Int) = 0 then IntSize else 64).toNat % 2 ^ 64 + 2 ^ 64 - 1) % 2 ^ 64
      = 2 ^ 64 - 1 := by
    rw [if_neg (by norm_num)]; rfl
  have h1 : ¬ ((2 : Int) ≤ 0 ∧ (0 : Int) ≤ 36) := by norm_num
  have h2 : ¬ ((64 : Int) < 0 ∨ (64 : Int) > 64) := by norm_num
  simp only [ParseUint, if_neg hs, if_neg h1, if_neg h2, hmax, if_true, decide_True]

/-- A range error of `ParseUint` comes with the maximal value. -/
theorem ParseUint_range_value (s : Bytes) (un : Nat)
    (h : ParseUint s 0 64 = (un, some NumError.ErrRange)) : un = 2 ^ 64 - 1 := by
  by_cases hs : s = []
  · simp [hs, ParseUint] at h
  · rw [ParseUint_base0 s hs] at h
    cases hp : parseDigits (prefixBase s).1 true (maxUint64 / (prefixBase s).1 + 1)
        (2 ^ 64 - 1) (prefixBase s).2 0 false with
    | error ve =>
      obtain ⟨v, e⟩ := ve
      rw [hp] at h
      simp only [Prod.mk.injEq, Option.some.injEq] at h
      obtain ⟨hv, he⟩ := h
      subst he
      have := parseDigits_range_value _ _ _ _ _ _ _ _ hp
      omega
    | ok nu =>
      obtain ⟨n, u⟩ := nu
      rw [hp] at h
      simp only [] at h
      split_ifs at h <;> simp at h

/-- `ParseUint` reports an error on a string that holds white space. -/
theorem ParseUint_space (s : Bytes) (h : ∃ c ∈ s, isSpace c) :
    (ParseUint s 0 64).2 ≠ none := by
  have hs : s ≠ [] := by
    rintro rfl; simp at h
  obtain ⟨v, e, hp⟩ := parseDigits_space (prefixBase s).1 true (maxUint64 / (prefixBase s).1 + 1)
    (2 ^ 64 - 1) (prefixBase s).2 0 false (prefixBase_space s h)
  rw [ParseUint_base0 s hs, hp]
  simp

/-- When `ParseUint` reports an error on the string after the sign,
`ParseInt` reports an error. -/
theorem ParseInt_err_of_ParseUint_err (c : UInt8) (cs : Bytes)
    (h : (ParseUint (if c.toNat = 43 ∨ c.toNat = 45 then cs else c :: cs) 0 64).2 ≠ none) :
    (ParseInt (c :: cs) 0 64).2 ≠ none := by
  have hr := ParseUint_range_value (if c.toNat = 43 ∨ c.toNat = 45 then cs else c :: cs)
  cases hu : ParseUint (if c.toNat = 43 ∨ c.toNat = 45 then cs else c :: cs) 0 64 with
  | mk un err =>
    rw [hu] at h hr
    simp only [ParseInt, hu, ParseInt_cutoff]
    cases err with
    | none => simp at h
    | some e =>
      by_cases he : e = NumError.ErrRange
      · subst he
        have hun := hr un rfl
        by_cases hneg : (if c.toNat = 43 then false else decide (c.toNat = 45)) = true
        · simp [hneg, hun]
        · simp [hneg, hun]
      · simp [he]

/-- `ParseInt` reports an error on a string that holds white space. -/
theorem ParseInt_space (s : Bytes) (h : ∃ c ∈ s, isSpace c) :
    (ParseInt s 0 64).2 ≠ none := by
  match s, h with
  | c :: cs, h =>
    apply ParseInt_err_of_ParseUint_err
    apply ParseUint_space
    obtain ⟨x, hx, hsx⟩ := h
    obtain ⟨_, _, h43, h45, _⟩ := isSpace_not_digit x hsx
    refine ⟨x, ?_, hsx⟩
    by_cases hc : c.toNat = 43 ∨ c.toNat = 45
    · have hne : x ≠ c := by
        rintro rfl
        rcases hc with hc | hc
        · exact h43 hc
        · exact h45 hc
      simpa [hc, hne] using hx
    · simpa [hc] using hx

/-! ## The contract of the decoders -/

/-- C4 fails as stated: the body `-1` is a literal that decodeText decodes,
without error, to the value -1. -/
theorem decodeText_minus_one_counterexample :
    decodeText (bytes "-1") = (-1, none) := by
  decide

/-- C4, amended: for every body and each decoder, a non-nil error is
ErrMalformedResp and comes with the id -1, so never with a non-negative id;
and `(-1, nil)` is the result exactly when the body decodes, without error,
to the value -1 (for decodeText: when `strconv.ParseInt` reads -1). -/
theorem decoders_error_pairs_with_minus_one
    (protoUnmarshal : Bytes → Option SnowizardResponse) (body : Bytes) :
    (((decodeText body).2 ≠ none → decodeText body = (-1, some Error.ErrMalformedResp)) ∧
      ((decodeJson body).2 ≠ none → decodeJson body = (-1, some Error.ErrMalformedResp)) ∧
      ((decodeProtobuf protoUnmarshal body).2 ≠ none →
        decodeProtobuf protoUnmarshal body = (-1, some Error.ErrMalformedResp))) ∧
    (¬ (0 ≤ (decodeText body).1 ∧ (decodeText body).2 ≠ none) ∧
      ¬ (0 ≤ (decodeJson body).1 ∧ (decodeJson body).2 ≠ none) ∧
      ¬ (0 ≤ (decodeProtobuf protoUnmarshal body).1 ∧
        (decodeProtobuf protoUnmarshal body).2 ≠ none)) ∧
    ((decodeText body = (-1, none) ↔ ParseInt body 0 64 = (-1, none)) ∧
      (decodeJson body = (-1, none) ↔ ∃ r, jsonUnmarshal body = some r ∧ r.GetId = -1) ∧
      (decodeProtobuf protoUnmarshal body = (-1, none) ↔
        ∃ r, protoUnmarshal body = some r ∧ r.GetId = -1)) := by
  refine ⟨⟨?_, ?_, ?_⟩, ⟨?_, ?_, ?_⟩, ⟨?_, ?_, ?_⟩⟩
  · unfold decodeText
    rcases ParseInt body 0 64 with ⟨n, _ | e⟩ <;> simp
  · unfold decodeJson
    rcases jsonUnmarshal body with _ | r <;> simp
  · unfold decodeProtobuf
    rcases protoUnmarshal body with _ | r <;> simp
  · unfold decodeText
    rcases ParseInt body 0 64 with ⟨n, _ | e⟩ <;> simp
  · unfold decodeJson
    rcases jsonUnmarshal body with _ | r <;> simp
  · unfold decodeProtobuf
    rcases protoUnmarshal body with _ | r <;> simp
  · unfold decodeText
    rcases ParseInt body 0 64 with ⟨n, _ | e⟩ <;> simp
  · unfold decodeJson
    rcases jsonUnmarshal body with _ | r <;> simp
  · unfold decodeProtobuf
    rcases protoUnmarshal body with _ | r <;> simp

/-- C5: decodeText returns `(n, nil)` when `strconv.ParseInt(body, 0, 64)`
reads the whole body as the value `n`, and exactly `(-1, ErrMalformedResp)`
on every body that does not parse: the empty body, every body that holds
white space (so surrounding blanks or a trailing newline), every decimal
literal outside the int64 range, and `not-a-number`. -/
theorem decodeText_parses_or_malformed :
    (∀ (body : Bytes) (n : Int), ParseInt body 0 64 = (n, none) → decodeText body = (n, none)) ∧
    (∀ body : Bytes, (ParseInt body 0 64).2 ≠ none →
      decodeText body = (-1, some Error.ErrMalformedResp)) ∧
    decodeText [] = (-1, some Error.ErrMalformedResp) ∧
    (∀ body : Bytes, (∃ c ∈ body, isSpace c) →
      decodeText body = (-1, some Error.ErrMalformedResp)) ∧
    (∀ n : Int, n < -2 ^ 63 ∨ 2 ^ 63 ≤ n →
      decodeText (formatInt n) = (-1, some Error.ErrMalformedResp)) ∧
    decodeText (bytes " 12345") = (-1, some Error.ErrMalformedResp) ∧
    decodeText (bytes "12345\n") = (-1, some Error.ErrMalformedResp) ∧
    decodeText (bytes "9223372036854775808") = (-1, some Error.ErrMalformedResp) ∧
    decodeText (bytes "not-a-number") = (-1, some Error.ErrMalformedResp) := by
  have herr : ∀ body : Bytes, (ParseInt body 0 64).2 ≠ none →
      decodeText body = (-1, some Error.ErrMalformedResp) := by
    intro body h
    unfold decodeText
    rcases hp : ParseInt body 0 64 with ⟨n, _ | e⟩
    · rw [hp] at h; simp at h
    · rfl
  refine ⟨?_, herr, by decide, ?_, ?_, by decide, by decide, by decide, by decide⟩
  · intro body n h
    simp [decodeText, h]
  · intro body h
    exact herr body (ParseInt_space body h)
  · intro n h
    exact herr _ (by rw [ParseInt_formatInt_out_of_range n h]; simp)

/-- C6: for every 64-bit signed integer `n`, decodeText applied to the
canonical base-10 rendering of `n` returns `(n, nil)`. -/
theorem decodeText_formatInt (n : Int) (hlo : -2 ^ 63 ≤ n) (hhi : n < 2 ^ 63) :
    decodeText (formatInt n) = (n, none) := by
  simp [decodeText, ParseInt_formatInt n hlo hhi]

/-- C6 at the boundary values 0, 1, the maximum 9223372036854775807 and the
minimum -9223372036854775808. -/
theorem decodeText_formatInt_witness :
    decodeText (formatInt 0) = (0, none) ∧
      decodeText (formatInt 1) = (1, none) ∧
      decodeText (formatInt 9223372036854775807) = (9223372036854775807, none) ∧
      decodeText (formatInt (-9223372036854775808)) = (-9223372036854775808, none) :=
  ⟨decodeText_formatInt 0 (by norm_num) (by norm_num),
    decodeText_formatInt 1 (by norm_num) (by norm_num),
    decodeText_formatInt 9223372036854775807 (by norm_num) (by norm_num),
    decodeText_formatInt (-9223372036854775808) (by norm_num) (by norm_num)⟩

/-- C7 fails as stated: the body `{}` is valid JSON, `json.Unmarshal` accepts
it and leaves the id unset, and decodeJson returns the getter's zero value
with a nil error, not `(-1, ErrMalformedResp)`. -/
theorem decodeJson_empty_object_counterexample :
    checkValid (bytes "\x7b\x7d") = true ∧
      decodeJson (bytes "\x7b\x7d") = (0, none) ∧
      decodeJson (bytes "\x7b\x7d") ≠ (-1, some Error.ErrMalformedResp) := by
  decide

/-- C7, amended: the body `{"id": 98765}` decodes to `(98765, nil)`; the
body `{}` (id field absent) decodes to `(0, nil)`; and every body that is
not valid JSON decodes to `(-1, ErrMalformedResp)`. -/
theorem decodeJson_id_absent_invalid :
    decodeJson (bytes "\x7b\"id\": 98765\x7d") = (98765, none) ∧
      decodeJson (bytes "\x7b\x7d") = (0, none) ∧
      ∀ body : Bytes, checkValid body = false →
        decodeJson body = (-1, some Error.ErrMalformedResp) := by
  refine ⟨by decide, by decide, ?_⟩
  intro body h
  simp [decodeJson, jsonUnmarshal, h]

/-! ## The contract of `Next` -/

/-- C1: when the attempts before position `k` fail (transport error, non-200
status, body-read error or decode error) and the attempt at `k` yields a 200
body that the configured decoder decodes without error to `id`, `Next`
returns `(id, nil)`: the decoded value of the first successful host. -/
theorem Next_returns_first_success (s : SnowizardClient) (w : World) (k : Nat) (id : Int)
    (hk : k < s.Hosts.length)
    (hpre : ∀ j, j < k → Failed s.decodeRespFn (w j))
    (hk1 : Succeeded s.decodeRespFn (w k) id) :
    Next s w = Exit.returned id none := by
  obtain ⟨e1, h1, _⟩ := nextRun_first_success s w k id hk hpre hk1
  simp [Next, h1]

/-- C1 at hosts `[A, B]`, A answering 500 and B answering 200 with the text
body `12345`: the text client returns `(12345, nil)`. -/
theorem Next_returns_first_success_witness :
    Next (NewSnowizardTextClient ["A", "B"] 2000) (firstThen status500 (ok200 "12345"))
      = Exit.returned 12345 none :=
  Next_returns_first_success (NewSnowizardTextClient ["A", "B"] 2000)
    (firstThen status500 (ok200 "12345")) 1 12345 (by decide)
    (fun j hj => by
      obtain rfl : j = 0 := by omega
      exact Failed.status _ (by decide))
    ⟨bytes "12345", rfl, by decide⟩

/-- C2: for every host list, the empty one included, when every attempt
fails (transport error, non-200 status, body-read error or decode error, in
any combination) `Next` returns exactly `(-1, ErrNoServers)`. -/
theorem Next_all_failed (s : SnowizardClient) (w : World)
    (h : ∀ j, j < s.Hosts.length → Failed s.decodeRespFn (w j)) :
    Next s w = Exit.returned (-1) (some Error.ErrNoServers) := by
  obtain ⟨e1, h1, _⟩ := nextRun_all_failed s w h
  simp [Next, h1]

/-- C2 at hosts `[A, B]`, A unreachable and B answering 500, and at the
empty host list. -/
theorem Next_all_failed_witness :
    Next (NewSnowizardTextClient ["A", "B"] 2000) (firstThen Attempt.doErr status500)
        = Exit.returned (-1) (some Error.ErrNoServers) ∧
      Next (NewSnowizardTextClient [] 2000) (always Attempt.doErr)
        = Exit.returned (-1) (some Error.ErrNoServers) :=
  ⟨Next_all_failed (NewSnowizardTextClient ["A", "B"] 2000) (firstThen Attempt.doErr status500)
      (fun j hj => by
        have hj2 : j < 2 := hj
        interval_cases j
        · exact Failed.transport
        · exact Failed.status _ (by decide)),
    Next_all_failed (NewSnowizardTextClient [] 2000) (always Attempt.doErr)
      (fun j hj => absurd hj (by simp [NewSnowizardTextClient]))⟩

/-- C3 fails as stated: with the single host A answering 200 with the body
`x`, which decodeText rejects with ErrMalformedResp, the text client returns
`(-1, ErrNoServers)`, not the decode error. -/
theorem Next_last_decode_error_counterexample :
    decodeText (bytes "x") = (-1, some Error.ErrMalformedResp) ∧
      Next (NewSnowizardTextClient ["A"] 2000) (always (ok200 "x"))
        = Exit.returned (-1) (some Error.ErrNoServers) ∧
      ¬ ∃ id, Next (NewSnowizardTextClient ["A"] 2000) (always (ok200 "x"))
        = Exit.returned id (some Error.ErrMalformedResp) := by
  have h : Next (NewSnowizardTextClient ["A"] 2000) (always (ok200 "x"))
      = Exit.returned (-1) (some Error.ErrNoServers) := by decide
  refine ⟨by decide, h, ?_⟩
  rintro ⟨id, hid⟩
  rw [h] at hid
  cases hid

/-- C3, amended: for every non-empty host list in which no host succeeds and
the last host returns a 200 response whose body the decoder rejects, `Next`
returns `(-1, ErrNoServers)`; the decode error is not what the caller sees. -/
theorem Next_last_decode_error (s : SnowizardClient) (w : World)
    (_hne : s.Hosts ≠ [])
    (h : ∀ j, j < s.Hosts.length → Failed s.decodeRespFn (w j))
    (_hlast : ∃ body, w (s.Hosts.length - 1) = Attempt.resp ⟨StatusOK, some body⟩ ∧
      (s.decodeRespFn body).2 ≠ none) :
    Next s w = Exit.returned (-1) (some Error.ErrNoServers) ∧
      Next s w ≠ Exit.returned (-1) (some Error.ErrMalformedResp) := by
  obtain ⟨e1, h1, _⟩ := nextRun_all_failed s w h
  simp [Next, h1]

/-- C3, amended, at the single host A answering 200 with the body `x`. -/
theorem Next_last_decode_error_witness :
    Next (NewSnowizardTextClient ["A"] 2000) (always (ok200 "x"))
        = Exit.returned (-1) (some Error.ErrNoServers) ∧
      Next (NewSnowizardTextClient ["A"] 2000) (always (ok200 "x"))
        ≠ Exit.returned (-1) (some Error.ErrMalformedResp) :=
  Next_last_decode_error (NewSnowizardTextClient ["A"] 2000) (always (ok200 "x"))
    (by simp [NewSnowizardTextClient])
    (fun j _ => Failed.decode _ (bytes "x") rfl rfl (by decide))
    ⟨bytes "x", rfl, by decide⟩

/-- C8 on the code: with the single host `a/%zz`, for which building the
request fails, `Next` does not return: it panics on the nil request.  Had the
failure been one of the transport instead, the same call returns
`(-1, ErrNoServers)`. -/
theorem Next_panics_on_bad_host :
    Next (NewSnowizardTextClient ["a/%zz"] 2000) (always Attempt.newRequestErr)
        = Exit.panicked ∧
      Next (NewSnowizardTextClient ["a/%zz"] 2000) (always Attempt.doErr)
        = Exit.returned (-1) (some Error.ErrNoServers) := by
  decide

/-- Within the four recoverable outcomes the requests follow the list: when
the hosts before position `n` fail and host `n` succeeds (or `n` is the
length of the list), the requests handed to the transport are the GET
requests to `http://<host>` of the first `n + 1` hosts, each once and in list
order, and these hosts are the only list of hosts with these URLs. -/
theorem nextRun_requests_within_outcomes (s : SnowizardClient) (w : World) (n : Nat)
    (hn : n ≤ s.Hosts.length)
    (hpre : ∀ j, j < n → Failed s.decodeRespFn (w j))
    (hsucc : n < s.Hosts.length → ∃ id, Succeeded s.decodeRespFn (w n) id) :
    (NextRun s w).2.requested
        = (s.Hosts.take (n + 1)).map (fun host =>
            ({ Method := "GET", URL := "http://" ++ host,
               Header := [("Content-Type", s.contentType), ("User-Agent", "gosnowizard")] }
              : Request)) ∧
      ∀ hs : List String,
        (NextRun s w).2.requested.map Request.URL = hs.map (fun host => "http://" ++ host) →
        hs = s.Hosts.take (n + 1) := by
  have hreq : (NextRun s w).2.requested
      = (s.Hosts.take (n + 1)).map (mkRequest s.contentType) := by
    by_cases hlt : n < s.Hosts.length
    · obtain ⟨id, hid⟩ := hsucc hlt
      obtain ⟨e1, h1, hr1⟩ := nextRun_first_success s w n id hlt hpre hid
      rw [h1]; exact hr1
    · have hlen : n = s.Hosts.length := by omega
      subst hlen
      obtain ⟨e1, h1, hr1⟩ := nextRun_all_failed s w hpre
      rw [h1, List.take_of_length_le (by omega)]; exact hr1
  refine ⟨by rw [hreq]; rfl, ?_⟩
  intro hs h
  rw [hreq, List.map_map] at h
  have hinj : Function.Injective (fun host : String => "http://" ++ host) := by
    intro x y hxy
    have hd := congrArg String.data hxy
    simp only [String.data_append] at hd
    exact String.ext (List.append_cancel_left hd)
  have h2 : (s.Hosts.take (n + 1)).map (fun host => "http://" ++ host)
      = hs.map (fun host => "http://" ++ host) := by
    rw [← h]; rfl
  exact (hinj.list_map h2).symm

/-- C9 on the code: with hosts `[A, a/%zz, C]`, A answering 500, the request
for `a/%zz` failing to build and C ready to answer a well-formed 200, the only
request `Next` hands to the transport is the one to A, and the call panics:
the hosts after A are not requested although no host before them succeeded.
With the second host failing at the transport instead, the same call requests
A, the second host and C, in list order. -/
theorem Next_requests_stop_at_bad_host :
    NextRun (NewSnowizardTextClient ["A", "a/%zz", "C"] 2000)
        (script [status500, Attempt.newRequestErr, ok200 "7"])
        = (Exit.panicked,
            { requested :=
                [{ Method := "GET", URL := "http://A",
                   Header := [("Content-Type", "text/plain"), ("User-Agent", "gosnowizard")] }],
              opened := [0], deferred := [], closed := [] }) ∧
      (NextRun (NewSnowizardTextClient ["A", "a/%zz", "C"] 2000)
        (script [status500, Attempt.doErr, ok200 "7"])).2.requested.map Request.URL
        = ["http://A", "http://a/%zz", "http://C"] := by
  decide

/-- C10 on the code: with the single host A answering 500, `Next` returns
`(-1, ErrNoServers)` having obtained a response (iteration 0) whose body it
never closed.  Had A answered 200 with a body that does not decode, the same
call closes the body before it returns. -/
theorem Next_leaks_non200_body :
    NextRun (NewSnowizardTextClient ["A"] 2000) (always status500)
        = (Exit.returned (-1) (some Error.ErrNoServers),
            { requested := [mkRequest TextContentType "A"], opened := [0],
              deferred := [], closed := [] }) ∧
      NextRun (NewSnowizardTextClient ["A"] 2000) (always (ok200 "x"))
        = (Exit.returned (-1) (some Error.ErrNoServers),
            { requested := [mkRequest TextContentType "A"], opened := [0],
              deferred := [], closed := [0] }) := by
  decide

end Snowizard
